import Mathlib

/-!
Verification of the `test-generator` crate of `sql-engines-common-test-infra`.

The Rust sources are embedded shallowly:

* `String.replace` (Rust `str::replace`) is modelled on `List Char` by
  `replaceAnyChar` (a character-class pattern, as in `replace(['/'], "_")`)
  and `replaceSub` (a substring pattern, as in `replace(".yml", "")`); both
  replace every non-overlapping occurrence left to right, as Rust does.
* `normalize_path`, `sanitize_description`, `write_mod_entry`,
  `generate_test_file`, `traverse` and `generate_tests` follow
  `src/test-generator/src/lib.rs`; file-system effects are made explicit by
  threading a `St` value (the generated directory and the mod file) through
  the functions, and a file's on-disk bytes are represented as the list of
  chunks written to it, in write order.
* Fallible I/O that the claims mention (directory removal and creation at
  start-up) is modelled by `StartupFs` fault flags; I/O the claims never
  exercise (opening a file handle, canonicalizing an existing path) is
  modelled as succeeding.
-/

namespace TestGen

/-- Rust `str::replace` with a character-class pattern (e.g.
`replace(['/', ';'], "_")`): every character of the class is replaced by the
replacement string. -/
def replaceAnyChar (cls rep : List Char) : List Char → List Char
  | [] => []
  | c :: cs => (if c ∈ cls then rep else [c]) ++ replaceAnyChar cls rep cs

/-- Rust `str::replace` with a substring pattern, fuelled so that it is
structurally recursive: occurrences are found left to right and do not
overlap.  The fuel is the length of the string, which is always enough
because every step consumes at least one character. -/
def replaceSubAux (pat rep : List Char) : Nat → List Char → List Char
  | _, [] => []
  | 0, s => s
  | fuel + 1, c :: cs =>
    if pat.isPrefixOf (c :: cs) then
      rep ++ replaceSubAux pat rep fuel (cs.drop (pat.length - 1))
    else
      c :: replaceSubAux pat rep fuel cs

/-- Rust `str::replace` with a substring pattern. -/
def replaceSub (pat rep s : List Char) : List Char :=
  replaceSubAux pat rep s.length s

/-- The single-quote character, spelled via its code point. -/
def squote : Char := Char.ofNat 39

/-- Embeds `normalize_path` (lib.rs:312-322): strip the `../tests/` prefix in
either separator convention, flatten separators to `_`, and remove `.yml`.
The string patterns `"../tests/"`, `"../tests\\"`, `"\\\\"` and `".yml"` use
substring replacement; the `char` patterns `'/'` and `'\\'` use
character-class replacement, exactly as in the source. -/
def normalize_path (p : String) : String :=
  String.mk
    (replaceSub ".yml".toList []
      (replaceAnyChar ['\\'] ['_']
        (replaceSub "\\\\".toList ['_']
          (replaceAnyChar ['/'] ['_']
            (replaceSub "../tests\\".toList []
              (replaceSub "../tests/".toList [] p.toList))))))

/-- Embeds `sanitize_description` (lib.rs:181-190) on character lists: the
eight replacements in source order. -/
def sanitizeChars (s : List Char) : List Char :=
  let s1 := replaceAnyChar [' ', '-', '(', ')', squote, ',', '.', ';'] ['_'] s
  let s2 := replaceSub ['=', '>'] "arrow".toList s1
  let s3 := replaceAnyChar ['$'] "dollar_sign".toList s2
  let s4 := replaceAnyChar ['/'] "or".toList s3
  let s5 := replaceAnyChar ['?'] "question_mark".toList s4
  let s6 := replaceAnyChar ['='] "equals".toList s5
  let s7 := replaceAnyChar ['*'] "star".toList s6
  replaceAnyChar ['|'] "pipe_".toList s7

/-- Embeds `sanitize_description` (lib.rs:181-190). -/
def sanitize_description (s : String) : String :=
  String.mk (sanitizeChars s.toList)

/-- I/O error causes, standing in for `std::io::Error` values. -/
inductive IoErr where
  | notFound
  | permissionDenied
  | alreadyExists

/-- Embeds the library error enum `Error` (lib.rs:58-68).  The payload of
`CannotDeserializeYaml` abbreviates the `serde_yaml::Error` message. -/
inductive Error where
  | CannotDeserializeYaml : String → String → Error
  | Io : String → IoErr → Error
  | Multiple : List Error → Error
  | UnknownTestType : String → Error

/-- The common shape of a parsed YAML test case that the generation engine
reads: `description` and `skip_reason` (lib.rs:38-51); the remaining fields
are never read by the traversal or output machinery. -/
structure Case where
  description : String
  skip_reason : Option String

/-- A `TestGenerator` implementation (lib.rs:80-103), reduced to the two
kind-specific operations the engine dispatches to.  The text produced by a
write is returned; a write failure is an `Error`. -/
structure GenModel where
  headerText : String → Except Error String
  caseText : Nat → Case → Except Error String

/-- The mutable on-disk state of one run: the files of the generated test
directory and the mod (index) file.  A file's content is the list of chunks
written to it, in write order; its bytes are the concatenation. -/
structure St where
  genFiles : List (String × List String)
  modContent : List String

/-- Opening a file with `create(true).append(true)` (lib.rs:124-127): an
existing file keeps its content, a missing one is created empty. -/
def createAppendOpen (files : List (String × List String)) (name : String) :
    List (String × List String) :=
  if files.any (fun p => p.1 = name) then files else files ++ [(name, [])]

/-- One successful `write!` to the named file appends one chunk. -/
def appendTo (files : List (String × List String)) (name text : String) :
    List (String × List String) :=
  files.map (fun p => if p.1 = name then (p.1, p.2 ++ [text]) else p)

/-- Embeds `write_mod_entry` (lib.rs:324-327): one registration line. -/
def write_mod_entry (st : St) (path : String) : St :=
  { st with modContent := st.modContent ++ ["pub mod " ++ path ++ ";\n"] }

/-- Embeds `parse_yaml_test_file` (lib.rs:168-177) given the file's parse
payload: `none` stands for content `serde_yaml` rejects. -/
def parse_yaml (path : String) (payload : Option (List Case)) :
    Except Error (List Case) :=
  match payload with
  | some cases => .ok cases
  | none => .error (.CannotDeserializeYaml path "deserialize error")

/-- The `for (index, test) in ... .enumerate()` loop of
`generate_test_file` step 5 (lib.rs:149-151). -/
def writeCases (g : GenModel) (fname : String) : Nat → List Case → St → St × Option Error
  | _, [], st => (st, none)
  | i, c :: cs, st =>
    match g.caseText i c with
    | .error e => (st, some e)
    | .ok t => writeCases g fname (i + 1) cs { st with genFiles := appendTo st.genFiles fname t }

/-- Embeds `generate_test_file` (lib.rs:110-154).  Step 1 writes the mod
entry, step 2 opens the output file with create-append semantics, step 3
writes the header, step 4 parses, step 5 writes one body per case.
Canonicalization is modelled as the identity on the (existing) input path. -/
def generate_test_file (g : GenModel) (original_path normalized_path : String)
    (payload : Option (List Case)) (st : St) : St × Option Error :=
  let st1 := write_mod_entry st normalized_path
  let fname := normalized_path ++ ".rs"
  let st2 : St := { st1 with genFiles := createAppendOpen st1.genFiles fname }
  match g.headerText original_path with
  | .error e => (st2, some e)
  | .ok h =>
    let st3 : St := { st2 with genFiles := appendTo st2.genFiles fname h }
    match parse_yaml original_path payload with
    | .error e => (st3, some e)
    | .ok cases => writeCases g fname 0 cases st3

/-- Embeds Rust `Path::extension` for a file name: the part after the last
dot, none when there is no dot or the only dot leads a hidden file. -/
def extOf (name : String) : Option String :=
  let cs := name.toList
  let e := (cs.reverse.takeWhile (fun c => c ≠ '.')).reverse
  if e.length = cs.length then none
  else if e.length + 1 = cs.length ∧ cs.headD ' ' = '.' then none
  else some (String.mk e)

mutual
/-- A directory tree of test inputs.  A file carries its parse payload
(`none` for malformed YAML). -/
inductive Entry where
  | file : String → Option (List Case) → Entry
  | dir : String → EntryList → Entry
/-- Directory entries in directory-listing order. -/
inductive EntryList where
  | nil : EntryList
  | cons : Entry → EntryList → EntryList
end

/-- A `TestGeneratorFactory` (lib.rs:159-164): resolves a path to a
generator or fails with `UnknownTestType`-style errors. -/
def Factory : Type := String → Except Error GenModel

mutual
/-- The body of the `for entry in test_dir` loop of `traverse`
(lib.rs:261-306): recurse into a directory; for a file whose extension is
`yml` or `yaml`, resolve a generator and run `generate_test_file`; ignore
other files.  Every failure is propagated immediately (the `?` operator). -/
def handleEntry (fac : Factory) : Entry → String → St → St × Option Error
  | .file name payload, parent, st =>
    let path := parent ++ "/" ++ name
    if extOf name = some "yml" ∨ extOf name = some "yaml" then
      match fac path with
      | .error e => (st, some e)
      | .ok g => generate_test_file g path (normalize_path path) payload st
    else (st, none)
  | .dir name subs, parent, st => traverse fac subs (parent ++ "/" ++ name) st

/-- Embeds `traverse` (lib.rs:255-308): left-to-right over the listing,
stopping at the first error. -/
def traverse (fac : Factory) : EntryList → String → St → St × Option Error
  | .nil, _, st => (st, none)
  | .cons e rest, parent, st =>
    match handleEntry fac e parent st with
    | (st', some err) => (st', some err)
    | (st', none) => traverse fac rest parent st'
end

/-- Modelled from the spec: the fixed boilerplate preamble of the mod file
(`templates/mod_header` is not among the sources; its text is the
generated-file marker block that the repository's own test expects). -/
def mod_header : String := "#![cfg_attr(rustfmt, rustfmt_skip)]\n#![allow(clippy::all)]\n"

/-- Embeds `generate_tests` (lib.rs:203-252) after a successful directory
wipe: the generated directory starts empty; the mod file is opened with
append-create semantics, so it starts empty only when its path lies inside
the deleted generated directory (`mod_inside_generated_dir`), and otherwise
keeps its prior content; the preamble is appended; then the tree is
traversed. -/
def generate_tests (fac : Factory) (prior : St) (mod_inside_generated_dir : Bool)
    (test_dir_path : String) (root : EntryList) : St × Option Error :=
  let prior_mod := if mod_inside_generated_dir then [] else prior.modContent
  let st0 : St := { genFiles := [], modContent := prior_mod ++ [mod_header] }
  traverse fac root test_dir_path st0

/-- Start-up faults for the output-directory lifecycle: whether the
generated directory exists, whether `remove_dir_all` fails on an existing
directory, and whether `create_dir` fails for a reason of its own. -/
structure StartupFs where
  dirExists : Bool
  removeFault : Bool
  createFault : Bool

/-- `fs::remove_dir_all(generated_dir_path)` (lib.rs:209): fails with
not-found when the directory is absent. -/
def remove_dir_all (f : StartupFs) : Except IoErr Unit :=
  if f.dirExists then
    (if f.removeFault then .error .permissionDenied else .ok ())
  else .error .notFound

/-- Whether the directory still exists after the removal attempt. -/
def dir_after_remove (f : StartupFs) : Bool := f.dirExists && f.removeFault

/-- `fs::create_dir(generated_dir_path)` (lib.rs:210): fails when the
directory survived removal or when a create fault is injected. -/
def create_dir (f : StartupFs) : Except IoErr Unit :=
  if f.createFault then .error .permissionDenied
  else if dir_after_remove f then .error .alreadyExists
  else .ok ()

/-- Embeds the `match (remove, create)` at the start of `generate_tests`
(lib.rs:209-234), including its error messages. -/
def startup (f : StartupFs) : Option Error :=
  match remove_dir_all f, create_dir f with
  | .ok _, .ok _ => none
  | .error _, .ok _ => none
  | .ok _, .error why => some (.Io "failed to create generated test directory" why)
  | .error d, .error c =>
    some (.Multiple [.Io "failed to delete generated test directory" d,
      .Io "failed to create generated test directory" c])

/-- `generate_tests` including the start-up directory lifecycle: on a
start-up error the function returns before touching the mod file or
generating anything (the directory itself may already have been deleted). -/
def generate_tests_full (fac : Factory) (sf : StartupFs) (prior : St)
    (mod_inside_generated_dir : Bool) (test_dir_path : String) (root : EntryList) :
    St × Option Error :=
  match startup sf with
  | some e =>
    ({ genFiles := match remove_dir_all sf with | .ok _ => [] | .error _ => prior.genFiles,
       modContent := prior.modContent }, some e)
  | none => generate_tests fac prior mod_inside_generated_dir test_dir_path root

/-- A generator whose writes all succeed, used to exercise the engine. -/
def okGen : GenModel :=
  { headerText := fun p => .ok ("header " ++ p ++ "\n")
    caseText := fun i c => .ok ("case " ++ toString i ++ " " ++ c.description ++ "\n") }

/-- A factory that resolves every path to `okGen`. -/
def okFac : Factory := fun _ => .ok okGen

/-- A well-formed test case. -/
def exCase : Case := { description := "ok case", skip_reason := none }

/-- Claim C3, counterexample: the identifier derived for `a/sample.yaml`
still carries the `.yaml` extension, so the recognized extension is not
stripped for the `.yaml` spelling. -/
theorem c3_counterexample :
    normalize_path "a/sample.yaml" = "a_sample.yaml" ∧
    normalize_path "a/sample.yaml" ≠ "a_sample" :=
  ⟨rfl, by decide⟩

/-- Claim C3, amended: `normalize_path` strips the known test-root prefix
in the two spellings the source lists (`../tests/` and `../tests\`),
flattens separators of either convention to `_`, and strips a
`.yml`-spelled extension, so `a/sample.yml` yields `a_sample`; a
`.yaml`-spelled extension is not stripped and remains in the identifier
(and a fully backslashed prefix `..\tests\` is flattened, not stripped). -/
theorem c3_amended :
    normalize_path "a/sample.yml" = "a_sample" ∧
    normalize_path "../tests/a/sample.yml" = "a_sample" ∧
    normalize_path "..\\tests\\a\\sample.yml" = ".._tests_a_sample" ∧
    normalize_path "a\\sample.yml" = "a_sample" ∧
    normalize_path "a/sample.yaml" = "a_sample.yaml" :=
  ⟨rfl, rfl, rfl, rfl, rfl⟩

/-- The two-file listing of C1: a malformed eligible file followed by a
well-formed one. -/
def badGoodRoot : EntryList :=
  .cons (.file "bad.yml" none) (.cons (.file "good.yml" (some [exCase])) .nil)

/-- Claim C1, counterexample: with a malformed `bad.yml` listed before a
well-formed `good.yml`, the run result is the single parse failure and the
generated directory contains only the failing file's output file — no
output was generated for `good.yml`, so a per-file failure does stop
traversal of sibling files. -/
theorem c1_counterexample :
    (generate_tests okFac ⟨[], []⟩ true "tests" badGoodRoot).2 =
      some (.CannotDeserializeYaml "tests/bad.yml" "deserialize error") ∧
    (generate_tests okFac ⟨[], []⟩ true "tests" badGoodRoot).1.genFiles.map Prod.fst =
      ["tests_bad.rs"] ∧
    (generate_tests okFac ⟨[], []⟩ true "tests" badGoodRoot).1.modContent =
      [mod_header, "pub mod tests_bad;\n"] :=
  ⟨rfl, rfl, rfl⟩

/-- Claim C1, amended: a per-file failure (parse error, unknown kind, or
emission I/O error) aborts the traversal immediately: the run result is
exactly that first failure, sibling entries after the failing one are not
visited, and the state is exactly the state at the failure (output written
before it persists). -/
theorem c1_amended (fac : Factory) (e : Entry) (rest : EntryList) (parent : String)
    (st st' : St) (err : Error) (h : handleEntry fac e parent st = (st', some err)) :
    traverse fac (.cons e rest) parent st = (st', some err) := by
  simp only [traverse, h]

/-- Claim C1, amended, witnessed at the C1 listing: traversal of
`[bad.yml, good.yml]` stops at `bad.yml` with its partial state. -/
theorem c1_amended_witness :
    traverse okFac badGoodRoot "tests" ⟨[], [mod_header]⟩ =
      (⟨[("tests_bad.rs", ["header tests/bad.yml\n"])],
        [mod_header, "pub mod tests_bad;\n"]⟩,
        some (.CannotDeserializeYaml "tests/bad.yml" "deserialize error")) :=
  c1_amended okFac (.file "bad.yml" none)
    (.cons (.file "good.yml" (some [exCase])) .nil) "tests" ⟨[], [mod_header]⟩ _ _ rfl

/-- Claim C4, counterexample: for a file whose parsing fails, the
registration line is already in the index when `generate_test_file`
returns the error — the index is not unchanged on that file's error. -/
theorem c4_counterexample :
    (generate_test_file okGen "tests/bad.yml" "tests_bad" none ⟨[], []⟩).2 =
      some (.CannotDeserializeYaml "tests/bad.yml" "deserialize error") ∧
    (generate_test_file okGen "tests/bad.yml" "tests_bad" none ⟨[], []⟩).1.modContent =
      ["pub mod tests_bad;\n"] :=
  ⟨rfl, rfl⟩

/-- The per-value effect of `writeCases` on the mod file: none. -/
theorem writeCases_modContent (g : GenModel) (fname : String) (cs : List Case)
    (i : Nat) (st : St) : ((writeCases g fname i cs st).1).modContent = st.modContent := by
  induction cs generalizing i st with
  | nil => rfl
  | cons c cs ih =>
    simp only [writeCases]
    cases g.caseText i c with
    | error e => rfl
    | ok t => exact ih (i + 1) _

/-- Claim C4, amended: `generate_test_file` appends the registration line
for the identifier to the shared index file first, as its step 1, before
the output file is opened and the header, parse, and bodies are attempted;
consequently the index gains exactly that line whether the file's
generation later fails or succeeds (only a generator-resolution failure,
which happens in `traverse` before `generate_test_file` is called, leaves
the index unchanged). -/
theorem c4_amended (g : GenModel) (p n : String) (payload : Option (List Case)) (st : St) :
    ((generate_test_file g p n payload st).1).modContent =
      st.modContent ++ ["pub mod " ++ n ++ ";\n"] := by
  simp only [generate_test_file]
  cases g.headerText p with
  | error e => rfl
  | ok h =>
    simp only
    cases hp : parse_yaml p payload with
    | error e => rfl
    | ok cases => simpa using writeCases_modContent g (n ++ ".rs") cases 0 _

/-- Claim C6, code evaluation at the failing input: with the index file at
a path outside the generated directory and carrying content from an earlier
run, `generate_tests` appends the preamble after the stale content, so the
index is not destroyed and its content does not begin with the preamble. -/
theorem c6_code_eval :
    (generate_tests okFac ⟨[], ["old content\n"]⟩ false "tests" .nil).1.modContent =
      ["old content\n", mod_header] ∧
    mod_header.toList.isPrefixOf
      (String.join (generate_tests okFac ⟨[], ["old content\n"]⟩ false "tests"
        .nil).1.modContent).toList = false :=
  ⟨rfl, by decide⟩

/-- Claim C5: at run start the generated directory is deleted and
recreated; absence of the directory is not an error; a create failure
aborts with a fatal I/O error; a delete failure on an existing directory
aborts with a single multi-cause failure carrying both the delete and the
create cause; and on any start-up failure the run returns that error
before generating output or touching the index file. -/
theorem c5_startup_lifecycle (f : StartupFs) :
    (f.dirExists = false → f.createFault = false → startup f = none) ∧
    (f.createFault = true → (startup f).isSome = true) ∧
    (f.dirExists = true → f.removeFault = true →
      startup f = some (.Multiple
        [.Io "failed to delete generated test directory" .permissionDenied,
         .Io "failed to create generated test directory"
           (if f.createFault then .permissionDenied else .alreadyExists)])) ∧
    (f.dirExists = true → f.removeFault = false → f.createFault = true →
      startup f = some (.Io "failed to create generated test directory" .permissionDenied)) ∧
    (∀ (fac : Factory) (prior : St) (mi : Bool) (tdp : String) (root : EntryList) (e : Error),
      startup f = some e →
        (generate_tests_full fac f prior mi tdp root).2 = some e ∧
        ((generate_tests_full fac f prior mi tdp root).1).modContent = prior.modContent) := by
  obtain ⟨de, rf, cf⟩ := f
  cases de <;> cases rf <;> cases cf <;>
    refine ⟨?_, ?_, ?_, ?_, fun fac prior mi tdp root e h => ?_⟩ <;>
    intros <;>
    simp_all [startup, remove_dir_all, create_dir, dir_after_remove, generate_tests_full]

/-- Claim C5, witnessed at concrete start-up fault configurations. -/
theorem c5_startup_lifecycle_witness :
    startup ⟨false, false, false⟩ = none ∧
    (startup ⟨false, false, true⟩).isSome = true ∧
    startup ⟨true, true, true⟩ = some (.Multiple
      [.Io "failed to delete generated test directory" .permissionDenied,
       .Io "failed to create generated test directory" .permissionDenied]) ∧
    startup ⟨true, false, true⟩ =
      some (.Io "failed to create generated test directory" .permissionDenied) ∧
    (generate_tests_full okFac ⟨true, false, true⟩ ⟨[], ["m"]⟩ true "tests" .nil).2 =
      some (.Io "failed to create generated test directory" .permissionDenied) :=
  ⟨(c5_startup_lifecycle ⟨false, false, false⟩).1 rfl rfl,
   (c5_startup_lifecycle ⟨false, false, true⟩).2.1 rfl,
   (c5_startup_lifecycle ⟨true, true, true⟩).2.2.1 rfl rfl,
   (c5_startup_lifecycle ⟨true, false, true⟩).2.2.2.1 rfl rfl rfl,
   ((c5_startup_lifecycle ⟨true, false, true⟩).2.2.2.2 okFac ⟨[], ["m"]⟩ true "tests" .nil _
     ((c5_startup_lifecycle ⟨true, false, true⟩).2.2.2.1 rfl rfl rfl)).1⟩

/-- The generated-directory effect and the outcome of the case loop depend
only on the generated directory it starts from, not on the index file. -/
theorem writeCases_det (g : GenModel) (fname : String) (cs : List Case) (i : Nat)
    (s1 s2 : St) (h : s1.genFiles = s2.genFiles) :
    ((writeCases g fname i cs s1).1).genFiles = ((writeCases g fname i cs s2).1).genFiles ∧
    (writeCases g fname i cs s1).2 = (writeCases g fname i cs s2).2 := by
  induction cs generalizing i s1 s2 with
  | nil => exact ⟨h, rfl⟩
  | cons c cs ih =>
    simp only [writeCases]
    cases hct : g.caseText i c with
    | error e => exact ⟨h, rfl⟩
    | ok t => exact ih (i + 1) _ _ (by simp [h])

/-- The generated-directory effect and the outcome of `generate_test_file`
depend only on the generated directory it starts from. -/
theorem generate_test_file_det (g : GenModel) (p n : String) (payload : Option (List Case))
    (s1 s2 : St) (h : s1.genFiles = s2.genFiles) :
    ((generate_test_file g p n payload s1).1).genFiles =
      ((generate_test_file g p n payload s2).1).genFiles ∧
    (generate_test_file g p n payload s1).2 = (generate_test_file g p n payload s2).2 := by
  simp only [generate_test_file, write_mod_entry]
  cases g.headerText p with
  | error e => exact ⟨by simp [h], rfl⟩
  | ok hh =>
    cases parse_yaml p payload with
    | error e => exact ⟨by simp [h], rfl⟩
    | ok cases => exact writeCases_det g (n ++ ".rs") cases 0 _ _ (by simp [h])

mutual
/-- The generated-directory effect and the outcome of one traversal step
depend only on the generated directory it starts from. -/
theorem handleEntry_det (fac : Factory) (e : Entry) (parent : String) (s1 s2 : St)
    (h : s1.genFiles = s2.genFiles) :
    ((handleEntry fac e parent s1).1).genFiles = ((handleEntry fac e parent s2).1).genFiles ∧
    (handleEntry fac e parent s1).2 = (handleEntry fac e parent s2).2 :=
  match e with
  | .file name payload => by
    simp only [handleEntry]
    by_cases hel : extOf name = some "yml" ∨ extOf name = some "yaml"
    · simp only [if_pos hel]
      cases fac (parent ++ "/" ++ name) with
      | error er => exact ⟨h, rfl⟩
      | ok g => exact generate_test_file_det g _ _ payload s1 s2 h
    · simp only [if_neg hel]
      exact ⟨h, by trivial⟩
  | .dir name subs => traverse_det fac subs (parent ++ "/" ++ name) s1 s2 h

/-- The generated-directory effect and the outcome of `traverse` depend
only on the generated directory it starts from. -/
theorem traverse_det (fac : Factory) (l : EntryList) (parent : String) (s1 s2 : St)
    (h : s1.genFiles = s2.genFiles) :
    ((traverse fac l parent s1).1).genFiles = ((traverse fac l parent s2).1).genFiles ∧
    (traverse fac l parent s1).2 = (traverse fac l parent s2).2 :=
  match l with
  | .nil => by exact ⟨h, rfl⟩
  | .cons e rest => by
    have he := handleEntry_det fac e parent s1 s2 h
    simp only [traverse]
    rcases h1 : handleEntry fac e parent s1 with ⟨a1, r1⟩
    rcases h2 : handleEntry fac e parent s2 with ⟨a2, r2⟩
    rw [h1, h2] at he
    obtain ⟨hg, hr⟩ := he
    cases r1 with
    | some err =>
      cases hr
      exact ⟨hg, rfl⟩
    | none =>
      cases hr
      exact traverse_det fac rest parent a1 a2 hg
end

/-- Claim C2: the contents of the generated output directory produced by a
run are a function of the factory, the test tree, and its listing order
alone — two runs over unchanged inputs produce equal generated files and
equal outcomes regardless of any prior on-disk state (the directory is
wiped at run start), and when the index file lives inside the generated
directory the index contents agree as well, since with a fixed listing
order the registration lines are written identically. -/
theorem c2_deterministic (fac : Factory) (tdp : String) (root : EntryList)
    (p1 p2 : St) (mi1 mi2 : Bool) :
    ((generate_tests fac p1 mi1 tdp root).1).genFiles =
      ((generate_tests fac p2 mi2 tdp root).1).genFiles ∧
    (generate_tests fac p1 mi1 tdp root).2 = (generate_tests fac p2 mi2 tdp root).2 ∧
    generate_tests fac p1 true tdp root = generate_tests fac p2 true tdp root := by
  refine ⟨?_, ?_, rfl⟩ <;>
  · simp only [generate_tests]
    first
    | exact (traverse_det fac root tdp
        ⟨[], (if mi1 then [] else p1.modContent) ++ [mod_header]⟩
        ⟨[], (if mi2 then [] else p2.modContent) ++ [mod_header]⟩ rfl).1
    | exact (traverse_det fac root tdp
        ⟨[], (if mi1 then [] else p1.modContent) ++ [mod_header]⟩
        ⟨[], (if mi2 then [] else p2.modContent) ++ [mod_header]⟩ rfl).2

/-- Appending a list of chunks to the named file. -/
def appendChunks (files : List (String × List String)) (name : String) (ts : List String) :
    List (String × List String) :=
  files.map (fun p => if p.1 = name then (p.1, p.2 ++ ts) else p)

/-- A single write is the one-chunk case of `appendChunks`. -/
theorem appendTo_eq_appendChunks (files : List (String × List String)) (n t : String) :
    appendTo files n t = appendChunks files n [t] := rfl

/-- Chunk appends to the same file compose. -/
theorem appendChunks_appendChunks (files : List (String × List String)) (n : String)
    (a b : List String) :
    appendChunks (appendChunks files n a) n b = appendChunks files n (a ++ b) := by
  simp only [appendChunks, List.map_map]
  congr 1
  funext p
  by_cases hp : p.1 = n <;> simp [Function.comp, hp, List.append_assoc]

/-- Appending no chunks changes nothing. -/
theorem appendChunks_nil (files : List (String × List String)) (n : String) :
    appendChunks files n [] = files := by
  have h : files.map (fun p => if p.1 = n then (p.1, p.2 ++ ([] : List String)) else p) =
      files.map id := by
    congr 1
    funext p
    by_cases hp : p.1 = n
    · subst hp
      simp
    · simp [hp]
  simp only [appendChunks, List.append_nil] at h ⊢
  simp only [List.map_id] at h
  exact h

/-- The chunks `okGen` writes for a case list starting at a given index. -/
def okCaseChunks : Nat → List Case → List String
  | _, [] => []
  | i, c :: cs => ("case " ++ toString i ++ " " ++ c.description ++ "\n") :: okCaseChunks (i + 1) cs

/-- The case loop with the always-succeeding generator appends one chunk
per case and succeeds. -/
theorem writeCases_okGen (fname : String) (cs : List Case) (i : Nat) (st : St) :
    writeCases okGen fname i cs st =
      ({ st with genFiles := appendChunks st.genFiles fname (okCaseChunks i cs) }, none) := by
  induction cs generalizing i st with
  | nil => simp [writeCases, okCaseChunks, appendChunks_nil]
  | cons c cs ih =>
    rw [show writeCases okGen fname i (c :: cs) st =
      writeCases okGen fname (i + 1) cs
        { st with genFiles :=
            (appendTo st.genFiles fname ("case " ++ toString i ++ " " ++ c.description ++ "\n")) }
      from rfl]
    rw [ih (i + 1), appendTo_eq_appendChunks, appendChunks_appendChunks]
    rfl

/-- `generate_test_file` with the always-succeeding generator and a
well-formed file: one registration line, the header chunk, one chunk per
case, success. -/
theorem generate_test_file_okGen (p n : String) (cs : List Case) (st : St) :
    generate_test_file okGen p n (some cs) st =
      ({ genFiles := appendChunks (createAppendOpen st.genFiles (n ++ ".rs")) (n ++ ".rs")
            (("header " ++ p ++ "\n") :: okCaseChunks 0 cs),
          modContent := st.modContent ++ ["pub mod " ++ n ++ ";\n"] }, none) := by
  rw [show generate_test_file okGen p n (some cs) st =
    writeCases okGen (n ++ ".rs") 0 cs
      { genFiles := appendTo (createAppendOpen st.genFiles (n ++ ".rs")) (n ++ ".rs")
          ("header " ++ p ++ "\n"),
        modContent := st.modContent ++ ["pub mod " ++ n ++ ";\n"] } from rfl]
  rw [writeCases_okGen, appendTo_eq_appendChunks, appendChunks_appendChunks]
  rfl

/-- Opening a fresh file creates it empty. -/
theorem createAppendOpen_nil (n : String) : createAppendOpen [] n = [(n, [])] := rfl

/-- Opening an already-present single file keeps it. -/
theorem createAppendOpen_single_same (n : String) (c : List String) :
    createAppendOpen [(n, c)] n = [(n, c)] := by simp [createAppendOpen]

/-- Appending chunks to the single present file. -/
theorem appendChunks_single_same (n : String) (c ts : List String) :
    appendChunks [(n, c)] n ts = [(n, c ++ ts)] := by simp [appendChunks]

/-- Claim C9: when two eligible files normalize to the same identifier, the
run raises no error: the output file is opened with create-plus-append
semantics, so the second file's header and case bodies land after the
first file's content in the same output file, the identifier is registered
twice in the index, and the run reports success. -/
theorem c9_duplicate_identifiers (n1 n2 : String) (cs1 cs2 : List Case)
    (tdp : String) (prior : St)
    (h1 : extOf n1 = some "yml" ∨ extOf n1 = some "yaml")
    (h2 : extOf n2 = some "yml" ∨ extOf n2 = some "yaml")
    (hnorm : normalize_path (tdp ++ "/" ++ n2) = normalize_path (tdp ++ "/" ++ n1)) :
    generate_tests okFac prior true tdp
        (.cons (.file n1 (some cs1)) (.cons (.file n2 (some cs2)) .nil)) =
      ({ genFiles := [(normalize_path (tdp ++ "/" ++ n1) ++ ".rs",
            ("header " ++ (tdp ++ "/" ++ n1) ++ "\n") :: (okCaseChunks 0 cs1 ++
              ("header " ++ (tdp ++ "/" ++ n2) ++ "\n") :: okCaseChunks 0 cs2))],
          modContent := [mod_header,
            "pub mod " ++ normalize_path (tdp ++ "/" ++ n1) ++ ";\n",
            "pub mod " ++ normalize_path (tdp ++ "/" ++ n1) ++ ";\n"] }, none) := by
  simp only [generate_tests, traverse, handleEntry, okFac, if_pos h1, if_pos h2, hnorm]
  rw [generate_test_file_okGen]
  simp only [createAppendOpen_nil, appendChunks_single_same, List.nil_append]
  rw [generate_test_file_okGen]
  simp only [createAppendOpen_single_same, appendChunks_single_same, appendChunks_appendChunks]
  simp [List.append_assoc]

/-- Claim C9, witnessed at two concrete files `a.yml` and `a.yml.yml` that
both normalize to `tests_a`: one shared output file with the second file's
header appended, the identifier registered twice, and success. -/
theorem c9_duplicate_identifiers_witness :
    generate_tests okFac ⟨[], []⟩ true "tests"
        (.cons (.file "a.yml" (some [exCase])) (.cons (.file "a.yml.yml" (some [])) .nil)) =
      ({ genFiles := [("tests_a.rs",
            ["header tests/a.yml\n", "case 0 ok case\n", "header tests/a.yml.yml\n"])],
          modContent := [mod_header, "pub mod tests_a;\n", "pub mod tests_a;\n"] }, none) := by
  have h := c9_duplicate_identifiers "a.yml" "a.yml.yml" [exCase] [] "tests" ⟨[], []⟩
    (Or.inl rfl) (Or.inl rfl) rfl
  exact h

/-- A parsed sample test case (test/parse_yaml_file.rs:4-16): the fields
the sample emitter reads (`description`, `skip_reason`) plus the payload
fields (`input`, flattened expectations and options) that the emitter
never dereferences. -/
structure SampleTestCase where
  description : String
  skip_reason : Option String
  input : String
  expectations : List (String × String)
  options : List (String × String)

/-- One emitted test construct of the sample generator: an instantiation
of `ignore_body_template` (name, skip reason, feature — no case index and
no expectations or options) or of `sample_test_body` (name and the case's
zero-based index). -/
inductive EmittedUnit where
  | ignored : String → String → String → EmittedUnit
  | asserting : String → Nat → EmittedUnit

/-- Whether a unit is the non-executing (skipped) construct. -/
def EmittedUnit.isIgnored : EmittedUnit → Bool
  | .ignored _ _ _ => true
  | .asserting _ _ => false

/-- Whether a unit is a fully-asserting construct. -/
def EmittedUnit.isAsserting : EmittedUnit → Bool
  | .ignored _ _ _ => false
  | .asserting _ _ => true

/-- Embeds `TestTestGenerator::generate_test_file_body`
(test/generate_tests.rs:28-58): enumerate the parsed cases in order; a
case with a `skip_reason` instantiates the ignore template with the
sanitized name, the reason and the feature; any other case instantiates
the asserting template with the sanitized name and its enumeration
index. -/
def generate_test_file_body (tests : List SampleTestCase) : List EmittedUnit :=
  tests.enum.map (fun p =>
    match p.2.skip_reason with
    | some r => .ignored (sanitize_description p.2.description) r "sample"
    | none => .asserting (sanitize_description p.2.description) p.1)

/-- The emitted unit at an index is determined by the case at that index. -/
theorem body_getElem (tests : List SampleTestCase) (j : Nat) (hj : j < tests.length)
    (hj2 : j < (generate_test_file_body tests).length) :
    (generate_test_file_body tests)[j] =
      (match tests[j].skip_reason with
       | some r => .ignored (sanitize_description tests[j].description) r "sample"
       | none => .asserting (sanitize_description tests[j].description) j) := by
  simp [generate_test_file_body, List.getElem_map, List.getElem_enum]

/-- Skipped units are in bijection with skip-marked cases (enumeration
offset generalized). -/
theorem body_countP_ignored_from (tests : List SampleTestCase) (n : Nat) :
    ((List.enumFrom n tests).map (fun p =>
      match p.2.skip_reason with
      | some r => EmittedUnit.ignored (sanitize_description p.2.description) r "sample"
      | none => EmittedUnit.asserting (sanitize_description p.2.description) p.1)).countP
        EmittedUnit.isIgnored = tests.countP (fun c => c.skip_reason.isSome) := by
  induction tests generalizing n with
  | nil => rfl
  | cons c t ih =>
    simp only [List.enumFrom, List.map_cons, List.countP_cons, ih]
    cases hc : c.skip_reason <;> simp [EmittedUnit.isIgnored, hc]

/-- Asserting units are in bijection with unskipped cases. -/
theorem body_countP_asserting_from (tests : List SampleTestCase) (n : Nat) :
    ((List.enumFrom n tests).map (fun p =>
      match p.2.skip_reason with
      | some r => EmittedUnit.ignored (sanitize_description p.2.description) r "sample"
      | none => EmittedUnit.asserting (sanitize_description p.2.description) p.1)).countP
        EmittedUnit.isAsserting = tests.countP (fun c => c.skip_reason.isNone) := by
  induction tests generalizing n with
  | nil => rfl
  | cons c t ih =>
    simp only [List.enumFrom, List.map_cons, List.countP_cons, ih]
    cases hc : c.skip_reason <;> simp [EmittedUnit.isAsserting, hc]

/-- A predicate holding at exactly one index counts to one. -/
theorem countP_eq_one_of_unique {α : Type} (p : α → Bool) (l : List α) (k : Nat)
    (hk : k < l.length) (h1 : p l[k] = true)
    (h2 : ∀ (j : Nat) (hj : j < l.length), j ≠ k → p l[j] = false) :
    l.countP p = 1 := by
  induction l generalizing k with
  | nil => simp at hk
  | cons a t ih =>
    cases k with
    | zero =>
      have hz : p a = true := h1
      have ht : t.countP p = 0 := by
        rw [List.countP_eq_zero]
        intro x hx
        obtain ⟨j, hj, rfl⟩ := List.mem_iff_getElem.mp hx
        have := h2 (j + 1) (by simpa using hj) (by omega)
        simpa using this
      simp [List.countP_cons, hz, ht]
    | succ k0 =>
      have ha : p a = false := by
        have := h2 0 (by omega) (by omega)
        simpa using this
      have hrec := ih k0 (by simpa using hk) (by simpa using h1)
        (fun j hj hne => by
          have := h2 (j + 1) (by simpa using hj) (by omega)
          simpa using this)
      simp [List.countP_cons, ha, hrec]

/-- Unskipped cases number the rest of the list. -/
theorem countP_isNone_eq (l : List SampleTestCase) :
    l.countP (fun c => c.skip_reason.isNone) =
      l.length - l.countP (fun c => c.skip_reason.isSome) := by
  induction l with
  | nil => rfl
  | cons c t ih =>
    have hle := List.countP_le_length (p := fun c => c.skip_reason.isSome) (l := t)
    simp only [List.countP_cons, List.length_cons, ih]
    cases hc : c.skip_reason
    · simp
      omega
    · simp

/-- Claim C7: for a parsed file in which exactly the case at index `k`
carries a skip reason, the sample generator's body emission produces
exactly one skipped construct — at position `k`, carrying `k`'s reason and
referencing no expectations or options — and exactly `N - 1` asserting
constructs, each asserting at its case's zero-based index in original
order. -/
theorem c7_skip_reason_emission (tests : List SampleTestCase) (k : Nat) (r : String)
    (hk : k < tests.length)
    (hskip : tests[k].skip_reason = some r)
    (hothers : ∀ (j : Nat) (hj : j < tests.length), j ≠ k → tests[j].skip_reason = none) :
    (generate_test_file_body tests).length = tests.length ∧
    (generate_test_file_body tests).countP EmittedUnit.isIgnored = 1 ∧
    (generate_test_file_body tests).countP EmittedUnit.isAsserting = tests.length - 1 ∧
    (∀ (hk2 : k < (generate_test_file_body tests).length),
      (generate_test_file_body tests)[k] =
        .ignored (sanitize_description tests[k].description) r "sample") ∧
    (∀ (j : Nat) (hj : j < tests.length) (hj2 : j < (generate_test_file_body tests).length),
      j ≠ k →
      (generate_test_file_body tests)[j] =
        .asserting (sanitize_description tests[j].description) j) := by
  have hsome : tests.countP (fun c => c.skip_reason.isSome) = 1 :=
    countP_eq_one_of_unique _ tests k hk (by simp [hskip])
      (fun j hj hne => by simp [hothers j hj hne])
  refine ⟨?_, ?_, ?_, ?_, ?_⟩
  · simp [generate_test_file_body]
  · rw [show (generate_test_file_body tests).countP EmittedUnit.isIgnored =
        tests.countP (fun c => c.skip_reason.isSome) from body_countP_ignored_from tests 0]
    exact hsome
  · rw [show (generate_test_file_body tests).countP EmittedUnit.isAsserting =
        tests.countP (fun c => c.skip_reason.isNone) from body_countP_asserting_from tests 0]
    rw [countP_isNone_eq, hsome]
  · intro hk2
    rw [body_getElem tests k hk hk2, hskip]
  · intro j hj hj2 hne
    rw [body_getElem tests j hj hj2, hothers j hj hne]

/-- Sample cases for the witness: only the middle one is skip-marked. -/
def sampleA : SampleTestCase := ⟨"first case", none, "in", [], []⟩

/-- The skip-marked middle case. -/
def sampleB : SampleTestCase := ⟨"second case", some "flaky", "in", [], []⟩

/-- The unskipped last case. -/
def sampleC : SampleTestCase := ⟨"third case", none, "in", [], []⟩

/-- Claim C7, witnessed on a three-case file whose middle case is
skipped. -/
theorem c7_skip_reason_emission_witness :
    (generate_test_file_body [sampleA, sampleB, sampleC]).countP EmittedUnit.isIgnored = 1 ∧
    (generate_test_file_body [sampleA, sampleB, sampleC]).countP EmittedUnit.isAsserting = 2 ∧
    (generate_test_file_body [sampleA, sampleB, sampleC]).get ⟨1, by decide⟩ =
      .ignored (sanitize_description "second case") "flaky" "sample" ∧
    (generate_test_file_body [sampleA, sampleB, sampleC]).get ⟨0, by decide⟩ =
      .asserting (sanitize_description "first case") 0 ∧
    (generate_test_file_body [sampleA, sampleB, sampleC]).get ⟨2, by decide⟩ =
      .asserting (sanitize_description "third case") 2 := by
  have h := c7_skip_reason_emission [sampleA, sampleB, sampleC] 1 "flaky" (by decide) rfl
    (by decide)
  exact ⟨h.2.1, h.2.2.1, h.2.2.2.1 (by decide), h.2.2.2.2 0 (by decide) (by decide) (by decide),
    h.2.2.2.2 2 (by decide) (by decide) (by decide)⟩

/-- A flat YAML mapping document: field names to scalar values, in
document order. -/
abbrev Doc : Type := List (String × String)

/-- The field names accepted for `input`: the canonical name and the two
serde aliases declared on `YamlTestCase` (lib.rs:43). -/
def input_field_names : List String := ["input", "query", "test_definition"]

/-- The names consumed by the named fields of `YamlTestCase`; every other
key is captured by the flattened `expectations`/`options`. -/
def special_field_names : List String :=
  ["description", "skip_reason", "input", "query", "test_definition"]

/-- The first value bound to a key in a document. -/
def findField : Doc → String → Option String
  | [], _ => none
  | kv :: rest, key => if kv.1 = key then some kv.2 else findField rest key

/-- The deserialized form of a `YamlTestCase` document with scalar fields:
the named fields plus the remaining (flattened) key-value pairs. -/
structure YamlTestCaseM where
  description : String
  skip_reason : Option String
  input : String
  flattened : List (String × String)

/-- Modelled from the spec: serde accepts the `input` field under its
canonical name or either declared alias, and seeing more than one of them
is a duplicate-field error (the derive output itself is generated code,
not among the sources; the alias declaration is lib.rs:43). -/
def getInputField (d : Doc) : Except String String :=
  match d.filter (fun kv => input_field_names.contains kv.1) with
  | [] => .error "missing field input"
  | [kv] => .ok kv.2
  | _ => .error "duplicate field input"

/-- Modelled from the spec: serde's derived deserializer for
`YamlTestCase` with scalar fields — `description` required, `skip_reason`
optional, `input` under canonical name or alias, all other keys flattened
into `expectations`/`options`. -/
def parse_yaml_test_case (d : Doc) : Except String YamlTestCaseM :=
  match findField d "description" with
  | none => .error "missing field description"
  | some desc =>
    match getInputField d with
    | .error e => .error e
    | .ok inp =>
      .ok { description := desc
            skip_reason := findField d "skip_reason"
            input := inp
            flattened := d.filter (fun kv => !(special_field_names.contains kv.1)) }

/-- Lookup of a key ignores a differing middle pair. -/
theorem findField_middle (l1 l2 : Doc) (a b v key : String) (ha : a ≠ key) (hb : b ≠ key) :
    findField (l1 ++ (a, v) :: l2) key = findField (l1 ++ (b, v) :: l2) key := by
  induction l1 with
  | nil => simp [findField, ha, hb]
  | cons kv t ih =>
    simp only [List.cons_append, findField]
    by_cases hk : kv.1 = key <;> simp [hk, ih]

/-- Claim C8: a document supplying the `input` field under either accepted
alias (`query` or `test_definition`) deserializes to the same
`YamlTestCase` as the identical document using the canonical field name
`input`. -/
theorem c8_input_alias_equivalence (alias_name : String)
    (halias : alias_name = "query" ∨ alias_name = "test_definition")
    (desc v : String) (pre post : Doc)
    (hpre : ∀ kv ∈ pre, input_field_names.contains kv.1 = false)
    (hpost : ∀ kv ∈ post, input_field_names.contains kv.1 = false) :
    parse_yaml_test_case (("description", desc) :: (pre ++ [(alias_name, v)] ++ post)) =
    parse_yaml_test_case (("description", desc) :: (pre ++ [("input", v)] ++ post)) := by
  have hsc : input_field_names.contains alias_name = true := by
    rcases halias with h | h <;> simp [h, input_field_names]
  have hspec : special_field_names.contains alias_name = true := by
    rcases halias with h | h <;> simp [h, special_field_names]
  have hfpre : pre.filter (fun kv => input_field_names.contains kv.1) = [] :=
    List.filter_eq_nil_iff.mpr (fun kv hkv => by simpa using hpre kv hkv)
  have hfpost : post.filter (fun kv => input_field_names.contains kv.1) = [] :=
    List.filter_eq_nil_iff.mpr (fun kv hkv => by simpa using hpost kv hkv)
  have hfilter : ∀ x : String, input_field_names.contains x = true →
      List.filter (fun kv : String × String => input_field_names.contains kv.1)
        (("description", desc) :: (pre ++ [(x, v)] ++ post)) = [(x, v)] := by
    intro x hx
    rw [List.filter_cons_of_neg (p := fun kv : String × String =>
        input_field_names.contains kv.1) (by simp [input_field_names]),
      List.filter_append, List.filter_append, hfpre, hfpost,
      List.filter_cons_of_pos (by simpa using hx)]
    simp
  have h1 : getInputField (("description", desc) :: (pre ++ [(alias_name, v)] ++ post)) =
      .ok v := by
    unfold getInputField
    rw [hfilter alias_name hsc]
  have h2 : getInputField (("description", desc) :: (pre ++ [("input", v)] ++ post)) =
      .ok v := by
    unfold getInputField
    rw [hfilter "input" (by decide)]
  have h3 : findField (("description", desc) :: (pre ++ [(alias_name, v)] ++ post))
        "skip_reason" =
      findField (("description", desc) :: (pre ++ [("input", v)] ++ post)) "skip_reason" := by
    have ha : alias_name ≠ "skip_reason" := by
      rcases halias with h | h <;> simp [h]
    simp only [List.append_assoc, List.singleton_append, findField]
    rw [if_neg (by simp), if_neg (by simp)]
    exact findField_middle pre post alias_name "input" v "skip_reason" ha (by decide)
  have h4 : (("description", desc) :: (pre ++ [(alias_name, v)] ++ post)).filter
        (fun kv => !(special_field_names.contains kv.1)) =
      (("description", desc) :: (pre ++ [("input", v)] ++ post)).filter
        (fun kv => !(special_field_names.contains kv.1)) := by
    simp only [List.append_assoc, List.singleton_append]
    rw [List.filter_cons_of_neg (p := fun kv : String × String =>
        !(special_field_names.contains kv.1)) (by simp [special_field_names]),
      List.filter_cons_of_neg (p := fun kv : String × String =>
        !(special_field_names.contains kv.1)) (by simp [special_field_names]),
      List.filter_append, List.filter_append]
    congr 1
    rw [List.filter_cons_of_neg (p := fun kv : String × String =>
        !(special_field_names.contains kv.1)) (by simpa using hspec),
      List.filter_cons_of_neg (p := fun kv : String × String =>
        !(special_field_names.contains kv.1)) (by simp [special_field_names])]
  have hd1 : findField (("description", desc) :: (pre ++ [(alias_name, v)] ++ post))
      "description" = some desc := by
    simp [findField]
  have hd2 : findField (("description", desc) :: (pre ++ [("input", v)] ++ post))
      "description" = some desc := by
    simp [findField]
  simp only [parse_yaml_test_case, hd1, hd2, h1, h2, h3, h4]

/-- Claim C8, witnessed on a concrete document using the `query` alias. -/
theorem c8_input_alias_equivalence_witness :
    parse_yaml_test_case
        [("description", "d"), ("skip_reason", "s"), ("query", "x"), ("expected_1", "e")] =
    parse_yaml_test_case
        [("description", "d"), ("skip_reason", "s"), ("input", "x"), ("expected_1", "e")] :=
  c8_input_alias_equivalence "query" (Or.inl rfl) "d" "x" [("skip_reason", "s")]
    [("expected_1", "e")] (by decide) (by decide)

/-- Characters of a class-replacement output come from the replacement or
survive from class-free positions of the input. -/
theorem mem_replaceAnyChar {c : Char} {cls rep s : List Char}
    (h : c ∈ replaceAnyChar cls rep s) : c ∈ rep ∨ (c ∈ s ∧ c ∉ cls) := by
  induction s with
  | nil => simp [replaceAnyChar] at h
  | cons a as ih =>
    simp only [replaceAnyChar] at h
    rcases List.mem_append.mp h with h1 | h1
    · by_cases ha : a ∈ cls
      · rw [if_pos ha] at h1
        exact Or.inl h1
      · rw [if_neg ha] at h1
        have : c = a := List.mem_singleton.mp h1
        subst this
        exact Or.inr ⟨List.mem_cons_self c as, ha⟩
    · rcases ih h1 with h2 | ⟨h2, h3⟩
      · exact Or.inl h2
      · exact Or.inr ⟨List.mem_cons_of_mem a h2, h3⟩

/-- A class-free string is unchanged by class replacement. -/
theorem replaceAnyChar_id (cls rep : List Char) (s : List Char)
    (h : ∀ c ∈ s, c ∉ cls) : replaceAnyChar cls rep s = s := by
  induction s with
  | nil => rfl
  | cons a as ih =>
    simp only [replaceAnyChar]
    rw [if_neg (h a (List.mem_cons_self a as)),
      ih (fun c hc => h c (List.mem_cons_of_mem a hc))]
    rfl

/-- Characters of a substring-replacement output come from the replacement
or from the input. -/
theorem mem_replaceSubAux {c : Char} (pat rep : List Char) (fuel : Nat) (s : List Char)
    (h : c ∈ replaceSubAux pat rep fuel s) : c ∈ rep ∨ c ∈ s := by
  induction fuel generalizing s with
  | zero =>
    cases s with
    | nil => simp [replaceSubAux] at h
    | cons a as => exact Or.inr h
  | succ fuel ih =>
    cases s with
    | nil => simp [replaceSubAux] at h
    | cons a as =>
      simp only [replaceSubAux] at h
      by_cases hp : pat.isPrefixOf (a :: as)
      · rw [if_pos hp] at h
        rcases List.mem_append.mp h with h1 | h1
        · exact Or.inl h1
        · rcases ih _ h1 with h2 | h2
          · exact Or.inl h2
          · exact Or.inr (List.mem_cons_of_mem a (List.mem_of_mem_drop h2))
      · rw [if_neg hp] at h
        rcases List.mem_cons.mp h with h1 | h1
        · subst h1
          exact Or.inr (List.mem_cons_self c as)
        · rcases ih as h1 with h2 | h2
          · exact Or.inl h2
          · exact Or.inr (List.mem_cons_of_mem a h2)

/-- Characters of a `replaceSub` output come from the replacement or from
the input. -/
theorem mem_replaceSub {c : Char} (pat rep s : List Char)
    (h : c ∈ replaceSub pat rep s) : c ∈ rep ∨ c ∈ s :=
  mem_replaceSubAux pat rep s.length s h

/-- A substring replacement whose pattern leads with an absent character
changes nothing. -/
theorem replaceSubAux_id (p0 : Char) (pr rep : List Char) (fuel : Nat) (s : List Char)
    (h : p0 ∉ s) : replaceSubAux (p0 :: pr) rep fuel s = s := by
  induction fuel generalizing s with
  | zero => cases s <;> rfl
  | succ fuel ih =>
    cases s with
    | nil => rfl
    | cons a as =>
      have hne : p0 ≠ a := by
        intro he
        exact h (by rw [he]; exact List.mem_cons_self a as)
      have hp : ¬ (p0 :: pr).isPrefixOf (a :: as) = true := by
        simp [List.isPrefixOf_cons₂, hne]
      simp only [replaceSubAux]
      rw [if_neg hp, ih as (fun hin => h (List.mem_cons_of_mem a hin))]

/-- A `replaceSub` whose pattern leads with an absent character changes
nothing. -/
theorem replaceSub_id (p0 : Char) (pr rep s : List Char) (h : p0 ∉ s) :
    replaceSub (p0 :: pr) rep s = s :=
  replaceSubAux_id p0 pr rep s.length s h

/-- The characters `sanitize_description` eliminates: the character class
of its first replacement and the single-character patterns of the later
ones. -/
def forbiddenChars : List Char :=
  [' ', '-', '(', ')', squote, ',', '.', ';', '=', '$', '/', '?', '*', '|']

/-- No replacement string of `sanitize_description` contains a character
it eliminates. -/
theorem sanitizeChars_forbidden_free (s : List Char) :
    ∀ c ∈ sanitizeChars s, c ∉ forbiddenChars := by
  have pipe_ok : ∀ c ∈ "pipe_".toList, c ∉ forbiddenChars := by decide
  have star_ok : ∀ c ∈ "star".toList, c ∉ forbiddenChars := by decide
  have equals_ok : ∀ c ∈ "equals".toList, c ∉ forbiddenChars := by decide
  have question_ok : ∀ c ∈ "question_mark".toList, c ∉ forbiddenChars := by decide
  have or_ok : ∀ c ∈ "or".toList, c ∉ forbiddenChars := by decide
  have dollar_ok : ∀ c ∈ "dollar_sign".toList, c ∉ forbiddenChars := by decide
  have arrow_ok : ∀ c ∈ "arrow".toList, c ∉ forbiddenChars := by decide
  have underscore_ok : ∀ c ∈ ['_'], c ∉ forbiddenChars := by decide
  intro c hc
  simp only [sanitizeChars] at hc
  rcases mem_replaceAnyChar hc with h8 | ⟨h7, hn8⟩
  · exact pipe_ok c h8
  rcases mem_replaceAnyChar h7 with h7r | ⟨h6, hn7⟩
  · exact star_ok c h7r
  rcases mem_replaceAnyChar h6 with h6r | ⟨h5, hn6⟩
  · exact equals_ok c h6r
  rcases mem_replaceAnyChar h5 with h5r | ⟨h4, hn5⟩
  · exact question_ok c h5r
  rcases mem_replaceAnyChar h4 with h4r | ⟨h3, hn4⟩
  · exact or_ok c h4r
  rcases mem_replaceAnyChar h3 with h3r | ⟨h2, hn3⟩
  · exact dollar_ok c h3r
  rcases mem_replaceSub _ _ _ h2 with h2r | h1
  · exact arrow_ok c h2r
  rcases mem_replaceAnyChar h1 with h1r | ⟨_, hn1⟩
  · exact underscore_ok c h1r
  intro hforb
  simp only [forbiddenChars, List.mem_cons, List.not_mem_nil, or_false] at hforb
  rcases hforb with rfl | rfl | rfl | rfl | rfl | rfl | rfl | rfl | rfl | rfl | rfl | rfl |
      rfl | rfl <;>
    first
    | exact hn1 (by decide)
    | exact hn3 (by decide)
    | exact hn4 (by decide)
    | exact hn5 (by decide)
    | exact hn6 (by decide)
    | exact hn7 (by decide)
    | exact hn8 (by decide)

/-- The first replacement's character class is eliminated. -/
theorem cls_sub_forbidden :
    ∀ c ∈ [' ', '-', '(', ')', squote, ',', '.', ';'], c ∈ forbiddenChars := by decide

/-- A string free of the eliminated characters is a fixed point of
`sanitizeChars`. -/
theorem sanitizeChars_id (l : List Char) (h : ∀ c ∈ l, c ∉ forbiddenChars) :
    sanitizeChars l = l := by
  have e1 : replaceAnyChar [' ', '-', '(', ')', squote, ',', '.', ';'] ['_'] l = l :=
    replaceAnyChar_id _ _ _ (fun c hc hin => h c hc (cls_sub_forbidden c hin))
  have e2 : replaceSub ['=', '>'] "arrow".toList l = l :=
    replaceSub_id '=' ['>'] _ l (fun hin => h '=' hin (by decide))
  have e3 : replaceAnyChar ['$'] "dollar_sign".toList l = l := by
    apply replaceAnyChar_id
    intro c hc hin
    apply h c hc
    rw [List.mem_singleton] at hin
    subst hin
    decide
  have e4 : replaceAnyChar ['/'] "or".toList l = l := by
    apply replaceAnyChar_id
    intro c hc hin
    apply h c hc
    rw [List.mem_singleton] at hin
    subst hin
    decide
  have e5 : replaceAnyChar ['?'] "question_mark".toList l = l := by
    apply replaceAnyChar_id
    intro c hc hin
    apply h c hc
    rw [List.mem_singleton] at hin
    subst hin
    decide
  have e6 : replaceAnyChar ['='] "equals".toList l = l := by
    apply replaceAnyChar_id
    intro c hc hin
    apply h c hc
    rw [List.mem_singleton] at hin
    subst hin
    decide
  have e7 : replaceAnyChar ['*'] "star".toList l = l := by
    apply replaceAnyChar_id
    intro c hc hin
    apply h c hc
    rw [List.mem_singleton] at hin
    subst hin
    decide
  have e8 : replaceAnyChar ['|'] "pipe_".toList l = l := by
    apply replaceAnyChar_id
    intro c hc hin
    apply h c hc
    rw [List.mem_singleton] at hin
    subst hin
    decide
  simp only [sanitizeChars]
  rw [e1, e2, e3, e4, e5, e6, e7, e8]

/-- Claim C10: `sanitize_description` is idempotent — no replacement it
produces contains any character or sequence that it replaces, so a second
application changes nothing. -/
theorem c10_sanitize_description_idempotent (s : String) :
    sanitize_description (sanitize_description s) = sanitize_description s := by
  unfold sanitize_description
  rw [show (String.mk (sanitizeChars s.toList)).toList = sanitizeChars s.toList from rfl]
  rw [sanitizeChars_id _ (sanitizeChars_forbidden_free s.toList)]

end TestGen

